import Mathlib

/-!
Shallow embedding of `src/components/reranker.py` of the YYY-rerank repository.

Conventions of the embedding:
* Python floats are modelled as `Rat` (the code only ever adds, multiplies and
  compares scores; no rounding behaviour is relied upon by the properties below).
* Fallible Python code is modelled with `Except PyError`; an uncaught Python
  exception corresponds to `Except.error`.
* External collaborators (the transition system's `tokenize_code`, the
  evaluator's `evaluate_dataset`, the batched feature scorers and the trained
  XGBoost booster's `predict`) are passed in as function arguments, exactly as
  they are consumed by the reranker code.
* `OrderedDict` is modelled as an association list together with `od_insert`,
  which updates an existing key in place (keeping its position) and appends a
  fresh key at the end — the exact `OrderedDict.__setitem__` order semantics.
-/

/-- The Python exceptions that the embedded code can raise. -/
inductive PyError where
  | indexError
  | nameError
  | typeError
  | valueError
  | tokenizeError
  deriving Repr, DecidableEq

/-- Model of `components.dataset.Example`: only the field the reranker core reads
(`example.src_sent`); the remaining constructor arguments of the pseudo
examples built in `initialize_rerank_features` are `hyp.code` and `None`s. -/
structure PyExample where
  src_sent : List String
  deriving Repr, DecidableEq

/-- A decoded hypothesis.  `code`, `score` and `is_correct` are produced by the
external parser/evaluation; `code_token_count` and `rerank_feature_values` are
the two fields mutated by the reranker.  `rerank_feature_values = none` models
the *absence* of the attribute (`hasattr(hyp, 'rerank_feature_values')` is
false), `some m` models the attribute holding the ordered mapping `m`. -/
structure Hyp where
  code : String
  score : Rat
  is_correct : Bool := false
  code_token_count : Nat := 0
  rerank_feature_values : Option (List (String × Rat)) := none
  deriving Repr, DecidableEq

instance : Inhabited Hyp := ⟨{ code := "", score := 0 }⟩

/-- A reranking feature (class `RerankingFeature` and its concrete subclasses).
`get_feat_value` receives `(example, hyp, hyp_id, all_hyps)` as in the Python
keyword-argument call of line 207.  For batched features, the source builds a
pseudo `Example(src_sent=example.src_sent, tgt_code=hyp.code, ...)`, scores
whole batches of them with `feat.score` (order preserving, one value per input,
per the spec's contract for batched scorers) and writes each value back to the
hypothesis at the same position; the net effect per hypothesis is
`batched_score example.src_sent hyp.code`, which is how it is modelled here
(the batch size 128 is semantically transparent for an order-preserving
per-element scorer). -/
structure RerankingFeature where
  feature_name : String
  is_batched : Bool
  get_feat_value : PyExample → Hyp → Nat → List Hyp → Rat
  batched_score : List String → String → Rat := fun _ _ => 0

/-- Model of `OrderedDict.__setitem__`: overwrite in place if the key exists (keeping
its position), otherwise append at the end. -/
def od_insert (m : List (String × Rat)) (k : String) (v : Rat) : List (String × Rat) :=
  if m.any (fun p => p.1 == k) then m.map (fun p => if p.1 == k then (k, v) else p)
  else m ++ [(k, v)]

/-- Same `OrderedDict` insertion for maps whose values are features. -/
def od_insert_feat (m : List (String × RerankingFeature)) (k : String) (v : RerankingFeature) :
    List (String × RerankingFeature) :=
  if m.any (fun p => p.1 == k) then m.map (fun p => if p.1 == k then (k, v) else p)
  else m ++ [(k, v)]

/-- Model of `Reranker.__init__` / `_add_feature`: `self.feat_map`, an `OrderedDict`
from feature name to feature, filled in registration order. -/
def build_feat_map (features : List RerankingFeature) : List (String × RerankingFeature) :=
  features.foldl (fun m f => od_insert_feat m f.feature_name f) []

/-- Model of `Reranker.__init__` / `_add_feature`: `self.batched_features`, the
`OrderedDict` restricted to batched features. -/
def build_batched_features (features : List RerankingFeature) : List (String × RerankingFeature) :=
  features.foldl (fun m f => if f.is_batched then od_insert_feat m f.feature_name f else m) []

/-- Model of `len(self.features)` (`Reranker.feature_num`). -/
def feature_num (features : List RerankingFeature) : Nat := features.length

/-- The `is_valid_hyp` closure of `filter_hyps_and_initialize_features`
(lines 226-234): run `tokenize_code(hyp.code)` inside `try`; if it succeeds and
the code string is truthy (nonempty) return `True`; a raised tokenization error
is caught and yields `False`; an empty code string falls through to the final
`return False`. -/
def is_valid_hyp (tokenize : String → Except Unit (List String)) (hyp : Hyp) : Bool :=
  match tokenize hyp.code with
  | Except.ok _ => hyp.code != ""
  | Except.error _ => false

/-- Sequential effectful map: Python `for` loop in which an uncaught exception
aborts the whole call at the first offending element. -/
def list_mapE {α β : Type} (f : α → Except PyError β) : List α → Except PyError (List β)
  | [] => Except.ok []
  | a :: as =>
    match f a with
    | Except.error e => Except.error e
    | Except.ok b =>
      match list_mapE f as with
      | Except.error e => Except.error e
      | Except.ok bs => Except.ok (b :: bs)

/-- First pass of `initialize_rerank_features` (lines 177-188): for every
hypothesis set `hyp.code_token_count = len(tokenize_code(hyp.code))` and
`hyp.rerank_feature_values = OrderedDict()` (empty).  `tokenize_code` is called
*outside* any `try`, so a tokenization failure propagates as an exception. -/
def init_hyps_phase1 (tokenize : String → Except Unit (List String)) :
    List Hyp → Except PyError (List Hyp)
  | [] => Except.ok []
  | h :: hs =>
    match tokenize h.code with
    | Except.error _ => Except.error PyError.tokenizeError
    | Except.ok toks =>
      match init_hyps_phase1 tokenize hs with
      | Except.error e => Except.error e
      | Except.ok rest =>
        Except.ok ({ h with code_token_count := toks.length,
                            rerank_feature_values := some [] } :: rest)

/-- Batched pass of `initialize_rerank_features` (lines 190-201): for every
hypothesis, for every batched feature (in `batched_features` order), write the
batch-computed value into `hyp.rerank_feature_values[feat_name]`. -/
def init_hyps_batched (bmap : List (String × RerankingFeature)) (ex : PyExample)
    (hyps : List Hyp) : List Hyp :=
  hyps.map (fun h =>
    let fv := bmap.foldl (fun m p => od_insert m p.1 (p.2.batched_score ex.src_sent h.code))
      (h.rerank_feature_values.getD [])
    { h with rerank_feature_values := some fv })

/-- One hypothesis' share of the non-batched pass (lines 203-208): iterate
`feat_map` in registration order, skip batched features, and insert
`feat.get_feat_value(example, hyp, hyp_id=hyp_id, all_hyps=hyps)` into the
(already batched-initialized) ordered mapping. -/
def nonbatched_fold (fmap : List (String × RerankingFeature)) (ex : PyExample) (h : Hyp)
    (hyp_id : Nat) (all_hyps : List Hyp) : List (String × Rat) :=
  fmap.foldl
    (fun m p => if p.2.is_batched then m else od_insert m p.1 (p.2.get_feat_value ex h hyp_id all_hyps))
    (h.rerank_feature_values.getD [])

/-- Non-batched pass over one example's hypothesis list.  The `all_hyps`
argument observed by `get_feat_value` is the post-batched-pass state of the
list, matching the two-phase design (batched values are computed and written
back before any non-batched feature runs; the features defined in the file read
only scores, codes and batched values of their siblings). -/
def init_hyps_nonbatched (fmap : List (String × RerankingFeature)) (ex : PyExample)
    (hyps : List Hyp) : List Hyp :=
  (List.range hyps.length).map (fun i =>
    let h := hyps.getD i default
    { h with rerank_feature_values := some (nonbatched_fold fmap ex h i hyps) })

/-- Model of `initialize_rerank_features` restricted to one `(example, hyps)` pair:
the three phases composed.  (In the source the three phases each run over the
whole dataset before the next begins; since no phase reads state of a
*different* example's hypotheses, per-example composition is equivalent.) -/
def init_example (features : List RerankingFeature) (tokenize : String → Except Unit (List String))
    (ex : PyExample) (hyps : List Hyp) : Except PyError (List Hyp) :=
  match init_hyps_phase1 tokenize hyps with
  | Except.error e => Except.error e
  | Except.ok h1 =>
    Except.ok (init_hyps_nonbatched (build_feat_map features) ex
      (init_hyps_batched (build_batched_features features) ex h1))

/-- Model of `Reranker.initialize_rerank_features` (lines 174-208).  The loops run over
`zip(examples, decode_results)`, which truncates to the shorter list; the
mutation is in place on the hypothesis objects, so hypothesis lists beyond
`len(examples)` are returned unchanged. -/
def init_rerank_features (features : List RerankingFeature)
    (tokenize : String → Except Unit (List String))
    (examples : List PyExample) (decode_results : List (List Hyp)) :
    Except PyError (List (List Hyp)) :=
  match list_mapE (fun p => init_example features tokenize p.1 p.2)
      (examples.zip decode_results) with
  | Except.error e => Except.error e
  | Except.ok updated => Except.ok (updated ++ decode_results.drop examples.length)

/-- Model of `Reranker._filter_hyps` (lines 213-220): every list of `decode_results` is
replaced, in place, by its valid hypotheses. -/
def filter_hyps (tokenize : String → Except Unit (List String))
    (decode_results : List (List Hyp)) : List (List Hyp) :=
  decode_results.map (fun hyps => hyps.filter (is_valid_hyp tokenize))

/-- Model of `Reranker.filter_hyps_and_initialize_features` (lines 222-238).  The guard
`hasattr(decode_results[0][0], 'rerank_feature_values')` indexes into the first
hypothesis list unconditionally: an empty `decode_results` or an empty first
hypothesis list raises `IndexError` before anything else happens.  When the
first hypothesis already has the attribute, the whole call is a no-op;
otherwise the lists are filtered and the features initialized. -/
def filter_hyps_and_init_features (features : List RerankingFeature)
    (tokenize : String → Except Unit (List String))
    (examples : List PyExample) (decode_results : List (List Hyp)) :
    Except PyError (List (List Hyp)) :=
  match decode_results with
  | [] => Except.error PyError.indexError
  | hyps0 :: _ =>
    match hyps0 with
    | [] => Except.error PyError.indexError
    | h0 :: _ =>
      if (h0.rerank_feature_values).isSome then Except.ok decode_results
      else init_rerank_features features tokenize examples (filter_hyps tokenize decode_results)

/-- Model of `np.argmax`: index of the first occurrence of the maximum.  (`np.argmax`
returns the first maximal index; the code only calls it on nonempty lists.) -/
def np_argmax : List Rat → Nat
  | [] => 0
  | x :: xs =>
    let j := np_argmax xs
    if x < xs.getD j x then j + 1 else 0

/-- Ordered insertion of index `i` into an index list sorted ascending by
score: `i` is placed before the first index of strictly larger score, hence
after every earlier-inserted index of equal score. -/
def as_insert (scores : List Rat) (i : Nat) : List Nat → List Nat
  | [] => [i]
  | j :: js =>
    if scores.getD i 0 < scores.getD j 0 then i :: j :: js else j :: as_insert scores i js

/-- Insert indices `0, 1, ..., n-1` in order. -/
def argsort_aux (scores : List Rat) : Nat → List Nat
  | 0 => []
  | n + 1 => as_insert scores n (argsort_aux scores n)

/-- Model of `np.argsort(scores)` (ascending).  The model fixes the deterministic
*stable* ascending argsort (indices ordered by score, ties by original index).
numpy's default kind is an introsort with no stability guarantee in general,
but on small arrays (length at most 16) it runs a stable insertion sort, so on
the inputs of the concrete instances below this is exactly numpy's output. -/
def np_argsort (scores : List Rat) : List Nat := argsort_aux scores scores.length

/-- Model of `np.dot` on two equally long 1-D arrays.  (`np.dot` raises on a length
mismatch; the theorems below only apply it at equal lengths, where `zip`
truncation is vacuous.) -/
def np_dot (a b : List Rat) : Rat := ((a.zip b).map (fun p => p.1 * p.2)).sum

/-- Model of `GridSearchReranker.get_rerank_score` (lines 332-337):
`hyp.score + np.dot(param, list(hyp.rerank_feature_values.values()))`.
The values are read in the ordered mapping's stored order. -/
def GridSearchReranker.get_rerank_score (hyp : Hyp) (param : List Rat) : Rat :=
  hyp.score + np_dot param ((hyp.rerank_feature_values.getD []).map Prod.snd)

/-- The per-example body of `compute_rerank_performance` (lines 248-259): an
empty hypothesis list contributes `[]`; otherwise every hypothesis is scored,
`best_hyp_idx = np.argmax(new_hyp_scores)`; `fast_mode` keeps the single best
hypothesis, the slow path emits `[hyps[i] for i in np.argsort(new_hyp_scores)[::-1]]`.
(The `verbose` diagnostic printing of lines 261-273 is omitted.) -/
def rerank_one_example (get_score : Hyp → List Rat → Rat) (param : List Rat)
    (fast_mode : Bool) (hyps : List Hyp) : List Hyp :=
  if hyps.isEmpty then []
  else
    let new_hyp_scores := hyps.map (fun h => get_score h param)
    if fast_mode then [hyps.getD (np_argmax new_hyp_scores) default]
    else ((np_argsort new_hyp_scores).reverse).map (fun i => hyps.getD i default)

/-- Model of `Reranker.compute_rerank_performance` (lines 240-277).  `get_score` is the
subclass' `get_rerank_score`, `evaluate_dataset` the external evaluator,
`self_parameter` the stored `self.parameter` used when `param is None`.
Besides the evaluator's metric the model also returns the intermediate
`sorted_decode_results`, so that theorems can speak about the reranked lists
handed to the evaluator. -/
def compute_rerank_performance (get_score : Hyp → List Rat → Rat)
    (features : List RerankingFeature)
    (tokenize : String → Except Unit (List String))
    (evaluate_dataset : List PyExample → List (List Hyp) → Bool → Rat)
    (self_parameter : List Rat)
    (examples : List PyExample) (decode_results : List (List Hyp))
    (param : Option (List Rat)) (fast_mode : Bool) :
    Except PyError (List (List Hyp) × Rat) :=
  match filter_hyps_and_init_features features tokenize examples decode_results with
  | Except.error e => Except.error e
  | Except.ok dr =>
    let p := param.getD self_parameter
    let sorted := (examples.zip dr).map (fun q => rerank_one_example get_score p fast_mode q.2)
    Except.ok (sorted, evaluate_dataset examples sorted fast_mode)

/-- Model of `itertools.combinations` over a list, drawn in the source order, emitted in
lexicographic order of positions. -/
def combinations {α : Type} : List α → Nat → List (List α)
  | _, 0 => [[]]
  | [], _ + 1 => []
  | x :: xs, n + 1 => (combinations xs n).map (fun c => x :: c) ++ combinations xs (n + 1)

/-- Model of `np.arange(0, 3.01, 0.01)`: 301 values `0.00, 0.01, ..., 3.00` (the
floating-point endpoint `3.01` is excluded: `ceil((3.01-0)/0.01) = 301`). -/
def np_arange_grid : List Rat := (List.range 301).map (fun k : Nat => (k : Rat) / 100)

/-- Model of `GridSearchReranker.train` (lines 339-357), translated faithfully to the
source.  `param_space` on line 344 is a *generator*; line 345 computes
`length = len([x for e in param_space])` where `x` is an unbound name: as soon
as the generator yields its first element, evaluating the comprehension body
raises `NameError: name 'x' is not defined`.  (The comprehension also consumes
the generator, so even with `x` bound, the subsequent `for param in
tqdm(param_space, ...)` loop would iterate zero times and `self.parameter`
would be left at `np.zeros(feature_num)`.)  Only when the combination list is
empty (i.e. `feature_num > len(grid_values)`) does the comprehension run zero
iterations and the (empty) search complete, leaving `parameter` at zeros.
Consequently the examples, decode results and evaluator are never consulted
and are omitted from the model's arguments. -/
def GridSearchReranker.train (fnum : Nat) (grid_values : List Rat) :
    Except PyError (List Rat) :=
  let param_space := combinations grid_values fnum
  if param_space.isEmpty then Except.ok (List.replicate fnum 0)
  else Except.error PyError.nameError

/-- The `_norm` closure of `train_multiprocess` (lines 379-380):
`sum(p ** 2 for p in _param)`. -/
def norm_sq (param : List Rat) : Rat := (param.map (fun p => p ^ 2)).sum

/-- One step of the coordinator's merge loop of `train_multiprocess`
(lines 394-398): take the incoming `(param, score)` iff
`score > best_score or score == best_score and _norm(param) < _norm(best_param)`
(`and` binds tighter than `or` in Python). -/
def merge_step (best r : List Rat × Rat) : List Rat × Rat :=
  if r.2 > best.2 ∨ (r.2 = best.2 ∧ norm_sq r.1 < norm_sq best.1) then r else best

/-- The coordinator's merge of `train_multiprocess` (lines 359-400), folded
over the worker results in arrival order, starting from
`best_param = np.zeros(feature_num)`, `best_score = initial_performance`. -/
def merge_results (fnum : Nat) (initial_performance : Rat)
    (results : List (List Rat × Rat)) : List Rat × Rat :=
  results.foldl merge_step (List.replicate fnum 0, initial_performance)

/-- Model of the per-hypothesis row of `XGBoostReranker.get_feature_matrix` (line 420):
`np.array([hyp.score] + [v for v in hyp.rerank_feature_values.values()])`. -/
def feat_vec (hyp : Hyp) : List Rat :=
  hyp.score :: (hyp.rerank_feature_values.getD []).map Prod.snd

/-- Model of `XGBoostReranker.get_feature_matrix` (lines 413-434): one row and one label
per hypothesis of each nonempty list, one group size per nonempty list;
`np.stack(x)` raises `ValueError` when there are no rows at all. -/
def get_feature_matrix (decode_results : List (List Hyp)) :
    Except PyError (List (List Rat) × List Nat × List Nat) :=
  let nonempty := decode_results.filter (fun hyps => !hyps.isEmpty)
  let x := (nonempty.map (fun hyps => hyps.map feat_vec)).flatten
  let y := (nonempty.map (fun hyps => hyps.map (fun h => if h.is_correct then (1 : Nat) else 0))).flatten
  let group := nonempty.map List.length
  if x.isEmpty then Except.error PyError.valueError else Except.ok (x, y, group)

/-- Model of `XGBoostReranker.get_rerank_score` (lines 436-440): build the one-row
feature matrix of `[[hyp]]` and return the booster's prediction on it; the
`param` argument is never read.  `predict` is the trained booster's row-wise
prediction function. -/
def XGBoostReranker.get_rerank_score (predict : List (List Rat) → List Rat)
    (hyp : Hyp) (param : List Rat) : Rat :=
  match get_feature_matrix [[hyp]] with
  | Except.ok (x, _, _) => (predict x).getD 0 0
  | Except.error _ => 0

/-- Modelled from the claim's words (C4): `hyp.score` plus the dot product of
`param` with the cached feature values taken in feature *registration* order
(the order in which the features were passed to the constructor).  Compared
below against the source's `GridSearchReranker.get_rerank_score`. -/
def get_rerank_score_registration_spec (features : List RerankingFeature) (hyp : Hyp)
    (param : List Rat) : Rat :=
  hyp.score +
    np_dot param (features.map (fun f =>
      (((hyp.rerank_feature_values.getD []).lookup f.feature_name).getD 0)))

/-- Modelled from the claim's words (C3): the *stable* descending sort — every
hypothesis is placed before the first already-placed hypothesis of
less-or-equal combined score, so equal-score hypotheses keep their original
relative order.  Compared below against the source's slow-path reordering. -/
def insert_desc (key : Hyp → Rat) (h : Hyp) : List Hyp → List Hyp
  | [] => [h]
  | b :: bs => if key h < key b then b :: insert_desc key h bs else h :: b :: bs

/-- Stable descending sort by `key` (the claim's required ordering). -/
def stable_sort_desc_spec (key : Hyp → Rat) (hyps : List Hyp) : List Hyp :=
  hyps.foldr (insert_desc key) []

/-- A concrete stand-in for the external transition system's `tokenize_code`:
code containing a parenthesis is untokenizable (raises), anything else
tokenizes to a single token.  Used only to instantiate witnesses and
counterexamples; all general theorems quantify over the tokenizer. -/
def toy_tokenize (s : String) : Except Unit (List String) :=
  if s.toList.contains '(' then Except.error () else Except.ok [s]

/-- A tokenizable nonempty hypothesis (spec's filtering instance). -/
def hypX : Hyp := { code := "x=1", score := 1 }

/-- An empty-code hypothesis (spec's filtering instance). -/
def hypE : Hyp := { code := "", score := 2 }

/-- An untokenizable hypothesis (spec's filtering instance). -/
def hypB : Hyp := { code := "not valid python((", score := 3 }

/-- A concrete example. -/
def exampleA : PyExample := { src_sent := ["src"] }

/-- A second concrete example. -/
def exampleB : PyExample := { src_sent := ["other"] }

/-- A non-batched feature registered first, of constant value 1. -/
def featA : RerankingFeature :=
  { feature_name := "a", is_batched := false, get_feat_value := fun _ _ _ _ => 1 }

/-- A batched feature registered second, of constant value 2. -/
def featB : RerankingFeature :=
  { feature_name := "b", is_batched := true, get_feat_value := fun _ _ _ _ => 0,
    batched_score := fun _ _ => 2 }

/-- Two initialized hypotheses with equal combined scores and distinct codes
(for the tie-order counterexample). -/
def hypT0 : Hyp := { code := "a", score := 1, rerank_feature_values := some [] }

/-- Second equal-score hypothesis. -/
def hypT1 : Hyp := { code := "b", score := 1, rerank_feature_values := some [] }

/-- Decode results with per-example hypothesis counts `[3, 0, 2]`. -/
def drCounts : List (List Hyp) := [List.replicate 3 hypX, [], List.replicate 2 hypX]

/-- The result of initializing `hypX` under features `[featA, featB]`: the
batched feature's value is stored first even though it was registered second. -/
def hypXinit : Hyp :=
  { code := "x=1", score := 1, is_correct := false, code_token_count := 1,
    rerank_feature_values := some [("b", 2), ("a", 1)] }

/-- The result of initializing `hypX` with no features registered. -/
def hypXinitNF : Hyp :=
  { code := "x=1", score := 1, is_correct := false, code_token_count := 1,
    rerank_feature_values := some [] }

/-! ### Basic list-indexing helpers -/

theorem getD_of_lt {α : Type} (l : List α) (i : Nat) (a b : α) (h : i < l.length) :
    l.getD i a = l.getD i b := by
  rw [List.getD_eq_getElem?_getD, List.getD_eq_getElem?_getD, List.getElem?_eq_getElem h]
  rfl

theorem getD_map_of_lt {α β : Type} (l : List α) (f : α → β) (i : Nat) (d : β) (d' : α)
    (h : i < l.length) : (l.map f).getD i d = f (l.getD i d') := by
  rw [List.getD_eq_getElem?_getD, List.getD_eq_getElem?_getD, List.getElem?_map,
    List.getElem?_eq_getElem h]
  rfl

theorem getD_range_map {β : Type} (n i : Nat) (f : Nat → β) (d : β) (h : i < n) :
    ((List.range n).map f).getD i d = f i := by
  rw [getD_map_of_lt (List.range n) f i d 0 (by simpa using h)]
  congr 1
  rw [List.getD_eq_getElem?_getD, List.getElem?_eq_getElem (by simpa using h)]
  simp

/-! ### `np.argmax`: maximum, first occurrence -/

theorem np_argmax_cons (x : Rat) (xs : List Rat) :
    np_argmax (x :: xs) = if x < xs.getD (np_argmax xs) x then np_argmax xs + 1 else 0 := rfl

theorem np_argmax_lt_length (l : List Rat) (h : l ≠ []) : np_argmax l < l.length := by
  induction l with
  | nil => exact absurd rfl h
  | cons x xs ih =>
    rw [np_argmax_cons]
    by_cases hc : x < xs.getD (np_argmax xs) x
    · rw [if_pos hc]
      have hxs : xs ≠ [] := by
        intro he
        subst he
        exact lt_irrefl x hc
      simpa using Nat.succ_lt_succ (ih hxs)
    · rw [if_neg hc]
      simp

theorem np_argmax_is_max (l : List Rat) :
    ∀ k, k < l.length → l.getD k 0 ≤ l.getD (np_argmax l) 0 := by
  induction l with
  | nil => intro k hk; simp at hk
  | cons x xs ih =>
    intro k hk
    rw [np_argmax_cons]
    by_cases hc : x < xs.getD (np_argmax xs) x
    · rw [if_pos hc]
      have hxs : xs ≠ [] := by
        intro he
        subst he
        exact lt_irrefl x hc
      have hj := np_argmax_lt_length xs hxs
      cases k with
      | zero =>
        show x ≤ xs.getD (np_argmax xs) 0
        calc x ≤ xs.getD (np_argmax xs) x := le_of_lt hc
          _ = xs.getD (np_argmax xs) 0 := getD_of_lt xs _ x 0 hj
      | succ k' =>
        show xs.getD k' 0 ≤ xs.getD (np_argmax xs) 0
        exact ih k' (by simpa using hk)
    · rw [if_neg hc]
      cases k with
      | zero => exact le_refl x
      | succ k' =>
        show xs.getD k' 0 ≤ x
        have hk' : k' < xs.length := by simpa using hk
        have hxs : xs ≠ [] := by
          intro he
          subst he
          simp at hk'
        have hj := np_argmax_lt_length xs hxs
        calc xs.getD k' 0 ≤ xs.getD (np_argmax xs) 0 := ih k' hk'
          _ = xs.getD (np_argmax xs) x := getD_of_lt xs _ 0 x hj
          _ ≤ x := not_lt.mp hc

theorem np_argmax_first (l : List Rat) :
    ∀ k, k < np_argmax l → l.getD k 0 < l.getD (np_argmax l) 0 := by
  induction l with
  | nil => intro k hk; simp [np_argmax] at hk
  | cons x xs ih =>
    intro k hk
    rw [np_argmax_cons] at hk ⊢
    by_cases hc : x < xs.getD (np_argmax xs) x
    · rw [if_pos hc] at hk ⊢
      have hxs : xs ≠ [] := by
        intro he
        subst he
        exact lt_irrefl x hc
      have hj := np_argmax_lt_length xs hxs
      cases k with
      | zero =>
        show x < xs.getD (np_argmax xs) 0
        calc x < xs.getD (np_argmax xs) x := hc
          _ = xs.getD (np_argmax xs) 0 := getD_of_lt xs _ x 0 hj
      | succ k' =>
        show xs.getD k' 0 < xs.getD (np_argmax xs) 0
        exact ih k' (by omega)
    · rw [if_neg hc] at hk ⊢
      simp at hk

/-- Claim C2: for every example whose hypothesis list is nonempty after
filtering and every fixed parameter vector, the `fast_mode=True` branch of
`compute_rerank_performance` (the per-example step `rerank_one_example`) scores
each surviving hypothesis with `get_rerank_score` and selects exactly one
hypothesis, the one of maximal score, and among equal maximal scores the one at
the lowest index; being a pure function of its inputs, the selection is the
same on every run with the same inputs. -/
theorem claim_C2_fast_mode_argmax (g : Hyp → List Rat → Rat) (param : List Rat)
    (hyps : List Hyp) (h : hyps ≠ []) :
    rerank_one_example g param true hyps
        = [hyps.getD (np_argmax (hyps.map (fun hy => g hy param))) default]
      ∧ np_argmax (hyps.map (fun hy => g hy param)) < hyps.length
      ∧ (∀ k, k < hyps.length →
          g (hyps.getD k default) param
            ≤ g (hyps.getD (np_argmax (hyps.map (fun hy => g hy param))) default) param)
      ∧ (∀ k, k < np_argmax (hyps.map (fun hy => g hy param)) →
          g (hyps.getD k default) param
            < g (hyps.getD (np_argmax (hyps.map (fun hy => g hy param))) default) param) := by
  have hne : hyps.isEmpty = false := by
    cases hyps with
    | nil => exact absurd rfl h
    | cons a as => rfl
  have hmne : hyps.map (fun hy => g hy param) ≠ [] := by
    cases hyps with
    | nil => exact absurd rfl h
    | cons a as => simp
  have hj0 := np_argmax_lt_length _ hmne
  have hj : np_argmax (hyps.map (fun hy => g hy param)) < hyps.length := by
    simpa using hj0
  refine ⟨?_, hj, ?_, ?_⟩
  · simp [rerank_one_example, hne]
  · intro k hk
    have h1 := np_argmax_is_max (hyps.map (fun hy => g hy param)) k (by simpa using hk)
    rwa [getD_map_of_lt hyps _ k 0 default hk,
      getD_map_of_lt hyps _ _ 0 default hj] at h1
  · intro k hk
    have hklen : k < hyps.length := lt_trans hk hj
    have h1 := np_argmax_first (hyps.map (fun hy => g hy param)) k hk
    rwa [getD_map_of_lt hyps _ k 0 default hklen,
      getD_map_of_lt hyps _ _ 0 default hj] at h1

/-- Witness for C2: two equal-score hypotheses; the first (lowest index) is
selected. -/
theorem claim_C2_witness :
    rerank_one_example GridSearchReranker.get_rerank_score [] true [hypT0, hypT1] = [hypT0] := by
  have h := claim_C2_fast_mode_argmax GridSearchReranker.get_rerank_score [] [hypT0, hypT1]
    (by decide)
  rw [h.1]
  norm_num [GridSearchReranker.get_rerank_score, hypT0, hypT1, np_dot, np_argmax]

/-! ### `np.argsort`: the stable ascending order and its properties -/

/-- The strict lexicographic order (score, original index) that the stable
ascending argsort realizes. -/
def ordR (scores : List Rat) (i j : Nat) : Prop :=
  scores.getD i 0 < scores.getD j 0 ∨ (scores.getD i 0 = scores.getD j 0 ∧ i < j)

theorem ordR_trans (s : List Rat) {a b c : Nat} (h1 : ordR s a b) (h2 : ordR s b c) :
    ordR s a c := by
  rcases h1 with h1 | ⟨h1e, h1l⟩ <;> rcases h2 with h2 | ⟨h2e, h2l⟩
  · exact Or.inl (lt_trans h1 h2)
  · exact Or.inl (h2e ▸ h1)
  · exact Or.inl (h1e ▸ h2)
  · exact Or.inr ⟨h1e.trans h2e, lt_trans h1l h2l⟩

theorem ordR_irrefl (s : List Rat) {a : Nat} (h : ordR s a a) : False := by
  rcases h with h | ⟨_, h⟩
  · exact lt_irrefl _ h
  · exact lt_irrefl _ h

theorem ordR_asymm (s : List Rat) {a b : Nat} (h1 : ordR s a b) (h2 : ordR s b a) : False :=
  ordR_irrefl s (ordR_trans s h1 h2)

theorem as_insert_perm (s : List Rat) (i : Nat) (acc : List Nat) :
    (as_insert s i acc).Perm (i :: acc) := by
  induction acc with
  | nil => simp [as_insert]
  | cons j js ih =>
    by_cases hc : s.getD i 0 < s.getD j 0
    · simp only [as_insert, if_pos hc]
      exact List.Perm.refl _
    · simp only [as_insert, if_neg hc]
      exact (ih.cons j).trans (List.Perm.swap i j js)

theorem mem_as_insert (s : List Rat) (i : Nat) (acc : List Nat) (x : Nat) :
    x ∈ as_insert s i acc ↔ x = i ∨ x ∈ acc := by
  rw [(as_insert_perm s i acc).mem_iff, List.mem_cons]

theorem as_insert_sorted (s : List Rat) (i : Nat) (acc : List Nat)
    (hs : acc.Sorted (ordR s)) (hb : ∀ j ∈ acc, j < i) :
    (as_insert s i acc).Sorted (ordR s) := by
  induction acc with
  | nil => simp [as_insert]
  | cons j js ih =>
    rw [List.sorted_cons] at hs
    by_cases hc : s.getD i 0 < s.getD j 0
    · simp only [as_insert, if_pos hc]
      rw [List.sorted_cons]
      refine ⟨?_, List.sorted_cons.mpr hs⟩
      intro b hbmem
      rcases List.mem_cons.mp hbmem with hbj | hbjs
      · exact hbj ▸ Or.inl hc
      · exact ordR_trans s (Or.inl hc) (hs.1 b hbjs)
    · simp only [as_insert, if_neg hc]
      rw [List.sorted_cons]
      constructor
      · intro b hbmem
        rcases (mem_as_insert s i js b).mp hbmem with hbi | hbjs
        · subst hbi
          rcases lt_or_eq_of_le (not_lt.mp hc) with hlt | heq
          · exact Or.inl hlt
          · exact Or.inr ⟨heq, hb j (List.mem_cons_self j js)⟩
        · exact hs.1 b hbjs
      · exact ih hs.2 (fun j' hj' => hb j' (List.mem_cons_of_mem j hj'))

theorem argsort_aux_perm (s : List Rat) : ∀ n, (argsort_aux s n).Perm (List.range n) := by
  intro n
  induction n with
  | zero => simp [argsort_aux]
  | succ n ih =>
    show (as_insert s n (argsort_aux s n)).Perm (List.range (n + 1))
    rw [List.range_succ]
    exact (as_insert_perm s n (argsort_aux s n)).trans
      ((ih.cons n).trans (List.perm_append_singleton n (List.range n)).symm)

theorem argsort_aux_mem (s : List Rat) (n j : Nat) (h : j ∈ argsort_aux s n) : j < n := by
  have := (argsort_aux_perm s n).mem_iff.mp h
  exact List.mem_range.mp this

theorem argsort_aux_sorted (s : List Rat) : ∀ n, (argsort_aux s n).Sorted (ordR s) := by
  intro n
  induction n with
  | zero => simp [argsort_aux]
  | succ n ih =>
    exact as_insert_sorted s n (argsort_aux s n) ih (fun j hj => argsort_aux_mem s n j hj)

theorem np_argsort_perm (s : List Rat) : (np_argsort s).Perm (List.range s.length) :=
  argsort_aux_perm s s.length

theorem np_argsort_sorted (s : List Rat) : (np_argsort s).Sorted (ordR s) :=
  argsort_aux_sorted s s.length

theorem sorted_pair_sublist (s : List Rat) :
    ∀ (as : List Nat), as.Sorted (ordR s) →
      ∀ i j, i ∈ as → j ∈ as → ordR s i j → [i, j].Sublist as := by
  intro as
  induction as with
  | nil => intro _ i j hi; simp at hi
  | cons a as ih =>
    intro hs i j hi hj hij
    rw [List.sorted_cons] at hs
    by_cases hia : i = a
    · subst hia
      have hj' : j ∈ as := by
        rcases List.mem_cons.mp hj with h | h
        · exact absurd (h ▸ hij) (fun hc => ordR_irrefl s hc)
        · exact h
      exact (List.singleton_sublist.mpr hj').cons₂ i
    · have hi' : i ∈ as := (List.mem_cons.mp hi).resolve_left hia
      have hj' : j ∈ as := by
        rcases List.mem_cons.mp hj with h | h
        · subst h
          exact absurd (hs.1 i hi') (fun h2 => ordR_asymm s hij h2)
        · exact h
      exact (ih hs.2 i j hi' hj' hij).cons a

/-- Claim C3 (amended): for every example whose hypothesis list is nonempty
after filtering, the `fast_mode=False` branch produces the full hypothesis
list reordered by the REVERSE of the stable ascending argsort of the combined
scores: the combined scores are descending along the output, but the
reordering is NOT stable — hypotheses with equal combined scores appear in
reversed original order (the code reverses an ascending argsort, so
ascending-stable ties come out backwards). -/
theorem claim_C3_slow_mode_descending (g : Hyp → List Rat → Rat) (param : List Rat)
    (hyps : List Hyp) (h : hyps ≠ []) :
    rerank_one_example g param false hyps
        = ((np_argsort (hyps.map (fun hy => g hy param))).reverse).map
            (fun i => hyps.getD i default)
      ∧ ((np_argsort (hyps.map (fun hy => g hy param))).reverse).Perm
          (List.range hyps.length)
      ∧ List.Pairwise
          (fun i j => (hyps.map (fun hy => g hy param)).getD j 0
            ≤ (hyps.map (fun hy => g hy param)).getD i 0)
          ((np_argsort (hyps.map (fun hy => g hy param))).reverse)
      ∧ ∀ i j, i < j → j < hyps.length →
          (hyps.map (fun hy => g hy param)).getD i 0
            = (hyps.map (fun hy => g hy param)).getD j 0 →
          [j, i].Sublist ((np_argsort (hyps.map (fun hy => g hy param))).reverse) := by
  have hne : hyps.isEmpty = false := by
    cases hyps with
    | nil => exact absurd rfl h
    | cons a as => rfl
  set s := hyps.map (fun hy => g hy param) with hs
  have hslen : s.length = hyps.length := List.length_map _ _
  refine ⟨?_, ?_, ?_, ?_⟩
  · simp [rerank_one_example, hne]
  · exact (List.reverse_perm (np_argsort s)).trans ((np_argsort_perm s).trans (by rw [hslen]))
  · rw [List.pairwise_reverse]
    exact (np_argsort_sorted s).imp (fun {a b} hab => by
      rcases hab with hlt | ⟨heq, _⟩
      · exact le_of_lt hlt
      · exact le_of_eq heq)
  · intro i j hij hjlen heq
    have hjs : j < s.length := by rw [hslen]; exact hjlen
    have his : i < s.length := lt_trans hij hjs
    have hmem : ∀ k, k < s.length → k ∈ np_argsort s :=
      fun k hk => (np_argsort_perm s).mem_iff.mpr (List.mem_range.mpr hk)
    have hsub : [i, j].Sublist (np_argsort s) :=
      sorted_pair_sublist s (np_argsort s) (np_argsort_sorted s) i j
        (hmem i his) (hmem j hjs) (Or.inr ⟨heq, hij⟩)
    have := hsub.reverse
    simpa using this

/-- Counterexample to C3 as stated: two hypotheses with equal combined scores
come out in REVERSED original order, differing from the stable descending
order the claim requires. -/
theorem claim_C3_counterexample :
    rerank_one_example GridSearchReranker.get_rerank_score [] false [hypT0, hypT1]
        = [hypT1, hypT0]
      ∧ stable_sort_desc_spec (fun hy => GridSearchReranker.get_rerank_score hy [])
          [hypT0, hypT1] = [hypT0, hypT1]
      ∧ rerank_one_example GridSearchReranker.get_rerank_score [] false [hypT0, hypT1]
          ≠ stable_sort_desc_spec (fun hy => GridSearchReranker.get_rerank_score hy [])
              [hypT0, hypT1] := by
  have h1 : rerank_one_example GridSearchReranker.get_rerank_score [] false [hypT0, hypT1]
      = [hypT1, hypT0] := by
    norm_num [rerank_one_example, GridSearchReranker.get_rerank_score, hypT0, hypT1, np_dot,
      np_argsort, argsort_aux, as_insert, np_argmax]
  have h2 : stable_sort_desc_spec (fun hy => GridSearchReranker.get_rerank_score hy [])
      [hypT0, hypT1] = [hypT0, hypT1] := by
    norm_num [stable_sort_desc_spec, insert_desc, GridSearchReranker.get_rerank_score,
      hypT0, hypT1, np_dot]
  refine ⟨h1, h2, ?_⟩
  rw [h1, h2]
  decide

/-- Witness for the amended C3 at a concrete input. -/
theorem claim_C3_witness :
    rerank_one_example GridSearchReranker.get_rerank_score [] false [hypT0, hypT1]
      = ((np_argsort ([hypT0, hypT1].map
          (fun hy => GridSearchReranker.get_rerank_score hy []))).reverse).map
          (fun i => [hypT0, hypT1].getD i default) :=
  (claim_C3_slow_mode_descending GridSearchReranker.get_rerank_score [] [hypT0, hypT1]
    (by decide)).1

/-! ### `OrderedDict` insertion-order lemmas -/

theorem od_insert_fresh (m : List (String × Rat)) (k : String) (v : Rat)
    (h : ∀ p ∈ m, p.1 ≠ k) : od_insert m k v = m ++ [(k, v)] := by
  unfold od_insert
  rw [if_neg]
  intro hc
  obtain ⟨p, hp, hpe⟩ := List.any_eq_true.mp hc
  exact h p hp (by simpa using hpe)

theorem od_insert_feat_fresh (m : List (String × RerankingFeature)) (k : String)
    (v : RerankingFeature) (h : ∀ p ∈ m, p.1 ≠ k) : od_insert_feat m k v = m ++ [(k, v)] := by
  unfold od_insert_feat
  rw [if_neg]
  intro hc
  obtain ⟨p, hp, hpe⟩ := List.any_eq_true.mp hc
  exact h p hp (by simpa using hpe)

theorem fold_od_insert_append {α : Type} (key : α → String) (val : α → Rat) :
    ∀ (xs : List α) (acc : List (String × Rat)),
      (xs.map key).Nodup → (∀ x ∈ xs, ∀ p ∈ acc, p.1 ≠ key x) →
      xs.foldl (fun m x => od_insert m (key x) (val x)) acc
        = acc ++ xs.map (fun x => (key x, val x)) := by
  intro xs
  induction xs with
  | nil => intro acc _ _; simp
  | cons x xs ih =>
    intro acc hnd hfresh
    rw [List.map_cons, List.nodup_cons] at hnd
    simp only [List.foldl_cons]
    rw [od_insert_fresh acc (key x) (val x)
      (fun p hp => hfresh x (List.mem_cons_self x xs) p hp)]
    rw [ih (acc ++ [(key x, val x)]) hnd.2 ?_]
    · simp
    · intro y hy p hp
      rcases List.mem_append.mp hp with hp1 | hp2
      · exact hfresh y (List.mem_cons_of_mem x hy) p hp1
      · have hpx : p = (key x, val x) := List.mem_singleton.mp hp2
        subst hpx
        intro hcontra
        have hc2 : key x = key y := hcontra
        exact hnd.1 (hc2 ▸ List.mem_map_of_mem key hy)

theorem fold_od_insert_feat_append :
    ∀ (xs : List RerankingFeature) (acc : List (String × RerankingFeature)),
      (xs.map (fun f => f.feature_name)).Nodup →
      (∀ x ∈ xs, ∀ p ∈ acc, p.1 ≠ x.feature_name) →
      xs.foldl (fun m f => od_insert_feat m f.feature_name f) acc
        = acc ++ xs.map (fun f => (f.feature_name, f)) := by
  intro xs
  induction xs with
  | nil => intro acc _ _; simp
  | cons x xs ih =>
    intro acc hnd hfresh
    rw [List.map_cons, List.nodup_cons] at hnd
    simp only [List.foldl_cons]
    rw [od_insert_feat_fresh acc x.feature_name x
      (fun p hp => hfresh x (List.mem_cons_self x xs) p hp)]
    rw [ih (acc ++ [(x.feature_name, x)]) hnd.2 ?_]
    · simp
    · intro y hy p hp
      rcases List.mem_append.mp hp with hp1 | hp2
      · exact hfresh y (List.mem_cons_of_mem x hy) p hp1
      · have hpx : p = (x.feature_name, x) := List.mem_singleton.mp hp2
        subst hpx
        intro hcontra
        have hc2 : x.feature_name = y.feature_name := hcontra
        exact hnd.1 (hc2 ▸ List.mem_map_of_mem (fun f => f.feature_name) hy)

theorem foldl_if_skip {α β : Type} (c : α → Bool) (step : β → α → β) :
    ∀ (xs : List α) (acc : β),
      xs.foldl (fun m x => if c x then step m x else m) acc
        = (xs.filter c).foldl step acc := by
  intro xs
  induction xs with
  | nil => intro acc; rfl
  | cons x xs ih =>
    intro acc
    by_cases hc : c x <;> simp [List.filter_cons, hc, ih]

theorem foldl_if_skip_neg {α β : Type} (c : α → Bool) (step : β → α → β) :
    ∀ (xs : List α) (acc : β),
      xs.foldl (fun m x => if c x then m else step m x) acc
        = (xs.filter (fun x => !c x)).foldl step acc := by
  intro xs
  induction xs with
  | nil => intro acc; rfl
  | cons x xs ih =>
    intro acc
    by_cases hc : c x <;> simp [List.filter_cons, hc, ih]

theorem filtered_names_nodup (features : List RerankingFeature) (c : RerankingFeature → Bool)
    (hnd : (features.map (fun f => f.feature_name)).Nodup) :
    ((features.filter c).map (fun f => f.feature_name)).Nodup :=
  hnd.sublist (List.Sublist.map (fun f => f.feature_name) (List.filter_sublist features))

theorem nodup_filter_names_disjoint (features : List RerankingFeature)
    (hnd : (features.map (fun f => f.feature_name)).Nodup) :
    ∀ k, k ∈ (features.filter (fun f => !f.is_batched)).map (fun f => f.feature_name) →
      k ∉ (features.filter (fun f => f.is_batched)).map (fun f => f.feature_name) := by
  induction features with
  | nil => simp
  | cons f fs ih =>
    rw [List.map_cons, List.nodup_cons] at hnd
    intro k hk1 hk2
    have hsub1 : ∀ (c : RerankingFeature → Bool),
        k ∈ (fs.filter c).map (fun f => f.feature_name) → k ∈ fs.map (fun f => f.feature_name) := by
      intro c hkc
      obtain ⟨f', hf', hfk⟩ := List.mem_map.mp hkc
      exact hfk ▸ List.mem_map_of_mem _ (List.mem_of_mem_filter hf')
    by_cases hb : f.is_batched
    · rw [List.filter_cons_of_neg (by simp [hb])] at hk1
      rw [List.filter_cons_of_pos (by simp [hb]), List.map_cons] at hk2
      rcases List.mem_cons.mp hk2 with hke | hk2'
      · exact hnd.1 (hke ▸ hsub1 _ hk1)
      · exact ih hnd.2 k hk1 hk2'
    · rw [List.filter_cons_of_pos (by simp [hb]), List.map_cons] at hk1
      rw [List.filter_cons_of_neg (by simp [hb])] at hk2
      rcases List.mem_cons.mp hk1 with hke | hk1'
      · exact hnd.1 (hke ▸ hsub1 _ hk2)
      · exact ih hnd.2 k hk1' hk2

theorem build_feat_map_eq (features : List RerankingFeature)
    (hnd : (features.map (fun f => f.feature_name)).Nodup) :
    build_feat_map features = features.map (fun f => (f.feature_name, f)) := by
  unfold build_feat_map
  rw [fold_od_insert_feat_append features [] hnd (by intro x _ p hp; simp at hp)]
  simp

theorem build_batched_features_eq (features : List RerankingFeature)
    (hnd : (features.map (fun f => f.feature_name)).Nodup) :
    build_batched_features features
      = (features.filter (fun f => f.is_batched)).map (fun f => (f.feature_name, f)) := by
  unfold build_batched_features
  rw [foldl_if_skip (fun f => f.is_batched) (fun m f => od_insert_feat m f.feature_name f)
    features []]
  rw [fold_od_insert_feat_append _ []
    (filtered_names_nodup features (fun f => f.is_batched) hnd)
    (by intro x _ p hp; simp at hp)]
  simp

theorem getD_mem_of_lt {α : Type} (l : List α) (i : Nat) (d : α) (h : i < l.length) :
    l.getD i d ∈ l := by
  rw [List.getD_eq_getElem?_getD, List.getElem?_eq_getElem h]
  exact List.getElem_mem h

theorem init_hyps_phase1_ok (tokenize : String → Except Unit (List String)) :
    ∀ (hyps out : List Hyp), init_hyps_phase1 tokenize hyps = Except.ok out →
      out.length = hyps.length ∧ ∀ h ∈ out, h.rerank_feature_values = some [] := by
  intro hyps
  induction hyps with
  | nil =>
    intro out hout
    simp only [init_hyps_phase1] at hout
    cases hout
    simp
  | cons h hs ih =>
    intro out hout
    simp only [init_hyps_phase1] at hout
    cases htok : tokenize h.code with
    | error e => rw [htok] at hout; cases hout
    | ok toks =>
      rw [htok] at hout
      cases hrec : init_hyps_phase1 tokenize hs with
      | error e => rw [hrec] at hout; cases hout
      | ok rest =>
        rw [hrec] at hout
        cases hout
        obtain ⟨hlen, hall⟩ := ih rest hrec
        refine ⟨by simp [hlen], ?_⟩
        intro h' hh'
        rcases List.mem_cons.mp hh' with he | hm
        · rw [he]
        · exact hall h' hm

theorem init_example_fv_names (features : List RerankingFeature)
    (hnd : (features.map (fun f => f.feature_name)).Nodup)
    (tokenize : String → Except Unit (List String)) (ex : PyExample) (hyps out : List Hyp)
    (hout : init_example features tokenize ex hyps = Except.ok out)
    (i : Nat) (hi : i < out.length) :
    ∃ m : List (String × Rat),
      (out.getD i default).rerank_feature_values = some m
      ∧ m.map Prod.fst
          = (features.filter (fun f => f.is_batched)).map (fun f => f.feature_name)
            ++ (features.filter (fun f => !f.is_batched)).map (fun f => f.feature_name) := by
  simp only [init_example] at hout
  cases hph : init_hyps_phase1 tokenize hyps with
  | error e => rw [hph] at hout; cases hout
  | ok h1 =>
    rw [hph] at hout
    cases hout
    obtain ⟨hlen1, hfv1⟩ := init_hyps_phase1_ok tokenize hyps h1 hph
    set bmap := build_batched_features features with hbmap
    set fmap := build_feat_map features with hfmap
    set h2 := init_hyps_batched bmap ex h1 with hh2
    have hlen2 : h2.length = h1.length := List.length_map _ _
    have hleno : (init_hyps_nonbatched fmap ex h2).length = h2.length := by
      simp [init_hyps_nonbatched]
    have hi2 : i < h2.length := by rw [← hleno]; exact hi
    have hi1 : i < h1.length := by rw [← hlen2]; exact hi2
    -- the element produced by the non-batched pass
    have hgout : (init_hyps_nonbatched fmap ex h2).getD i default
        = (fun j =>
            let hj := h2.getD j default
            { hj with rerank_feature_values := some (nonbatched_fold fmap ex hj j h2) }) i := by
      exact getD_range_map h2.length i _ default hi2
    rw [hgout]
    -- the element produced by the batched pass
    have hb2 : h2.getD i default
        = (fun hb =>
            let fv := bmap.foldl
              (fun m p => od_insert m p.1 (p.2.batched_score ex.src_sent hb.code))
              (hb.rerank_feature_values.getD [])
            { hb with rerank_feature_values := some fv }) (h1.getD i default) := by
      exact getD_map_of_lt h1 _ i default default hi1
    have hfv1i : (h1.getD i default).rerank_feature_values = some [] :=
      hfv1 (h1.getD i default) (getD_mem_of_lt h1 i default hi1)
    refine ⟨nonbatched_fold fmap ex (h2.getD i default) i h2, rfl, ?_⟩
    -- compute the batched fold result
    have hbvals : (h2.getD i default).rerank_feature_values
        = some ((features.filter (fun f => f.is_batched)).map
            (fun f => (f.feature_name, f.batched_score ex.src_sent (h1.getD i default).code))) := by
      rw [hb2]
      simp only [hfv1i, Option.getD_some]
      rw [hbmap, build_batched_features_eq features hnd]
      have hfold := fold_od_insert_append (fun p : String × RerankingFeature => p.1)
        (fun p => p.2.batched_score ex.src_sent (h1.getD i default).code)
        ((features.filter (fun f => f.is_batched)).map (fun f => (f.feature_name, f))) []
        (by
          rw [List.map_map]
          exact filtered_names_nodup features (fun f => f.is_batched) hnd)
        (by intro x _ p hp; simp at hp)
      rw [hfold, List.nil_append, List.map_map]
      rfl
    -- compute the non-batched fold result
    rw [nonbatched_fold, hbvals, Option.getD_some]
    rw [hfmap, build_feat_map_eq features hnd]
    have hskip := foldl_if_skip_neg (fun p : String × RerankingFeature => p.2.is_batched)
      (fun m p => od_insert m p.1 (p.2.get_feat_value ex (h2.getD i default) i h2))
      (features.map (fun f => (f.feature_name, f)))
      ((features.filter (fun f => f.is_batched)).map
        (fun f => (f.feature_name, f.batched_score ex.src_sent (h1.getD i default).code)))
    rw [hskip]
    have hfilter : (features.map (fun f => (f.feature_name, f))).filter
          (fun p => !p.2.is_batched)
        = (features.filter (fun f => !f.is_batched)).map (fun f => (f.feature_name, f)) := by
      rw [List.filter_map]
      rfl
    rw [hfilter]
    have hfold2 := fold_od_insert_append (fun p : String × RerankingFeature => p.1)
      (fun p => p.2.get_feat_value ex (h2.getD i default) i h2)
      ((features.filter (fun f => !f.is_batched)).map (fun f => (f.feature_name, f)))
      ((features.filter (fun f => f.is_batched)).map
        (fun f => (f.feature_name, f.batched_score ex.src_sent (h1.getD i default).code)))
      (by
        rw [List.map_map]
        exact filtered_names_nodup features (fun f => !f.is_batched) hnd)
      (by
        intro x hx p hp
        obtain ⟨f', hf', hfx⟩ := List.mem_map.mp hx
        obtain ⟨fb, hfb, hfp⟩ := List.mem_map.mp hp
        intro hcontra
        have hp1 : p.1 = fb.feature_name := by rw [← hfp]
        have hx1 : (fun p : String × RerankingFeature => p.1) x = f'.feature_name := by
          rw [← hfx]
        rw [hp1, hx1] at hcontra
        exact nodup_filter_names_disjoint features hnd f'.feature_name
          (List.mem_map_of_mem _ hf') (hcontra ▸ List.mem_map_of_mem _ hfb))
    rw [hfold2, List.map_append]
    simp only [List.map_map]
    rfl

theorem init_example_featAB_eval :
    init_example [featA, featB] toy_tokenize exampleA [hypX] = Except.ok [hypXinit] := by
  rfl

/-- Claim C4 (amended): for every initialized hypothesis,
`GridSearchReranker.get_rerank_score` returns `hyp.score` plus the dot product
of `param` with the cached feature values in their STORED order, which is:
batched features first (in registration order among the batched), then
non-batched features (in registration order among the non-batched) — not plain
registration order; the two coincide exactly when no non-batched feature is
registered before a batched one, in particular whenever no feature is batched. -/
theorem claim_C4_score_stored_order (features : List RerankingFeature)
    (hnd : (features.map (fun f => f.feature_name)).Nodup)
    (tokenize : String → Except Unit (List String)) (ex : PyExample) (hyps out : List Hyp)
    (hout : init_example features tokenize ex hyps = Except.ok out)
    (i : Nat) (hi : i < out.length) :
    ∃ m : List (String × Rat),
      (out.getD i default).rerank_feature_values = some m
      ∧ m.map Prod.fst
          = (features.filter (fun f => f.is_batched)).map (fun f => f.feature_name)
            ++ (features.filter (fun f => !f.is_batched)).map (fun f => f.feature_name)
      ∧ (∀ param, GridSearchReranker.get_rerank_score (out.getD i default) param
          = (out.getD i default).score + np_dot param (m.map Prod.snd))
      ∧ ((∀ f ∈ features, f.is_batched = false) →
          m.map Prod.fst = features.map (fun f => f.feature_name)) := by
  obtain ⟨m, hm, hnames⟩ := init_example_fv_names features hnd tokenize ex hyps out hout i hi
  refine ⟨m, hm, hnames, ?_, ?_⟩
  · intro param
    unfold GridSearchReranker.get_rerank_score
    rw [hm]
    rfl
  · intro hall
    rw [hnames]
    have h1 : features.filter (fun f => f.is_batched) = [] := by
      rw [List.filter_eq_nil_iff]
      intro f hf
      simp [hall f hf]
    have h2 : features.filter (fun f => !f.is_batched) = features := by
      rw [List.filter_eq_self]
      intro f hf
      simp [hall f hf]
    rw [h1, h2]
    simp

/-- Counterexample to C4 as stated: `featA` (non-batched) is registered before
`featB` (batched), yet after initialization the cached values are stored
batched-first, so the score dots `param` with the values in an order different
from registration order, and the two scores differ at `param = [1, 0]`. -/
theorem claim_C4_counterexample :
    init_example [featA, featB] toy_tokenize exampleA [hypX] = Except.ok [hypXinit]
      ∧ GridSearchReranker.get_rerank_score hypXinit [1, 0] = 3
      ∧ get_rerank_score_registration_spec [featA, featB] hypXinit [1, 0] = 2
      ∧ GridSearchReranker.get_rerank_score hypXinit [1, 0]
          ≠ get_rerank_score_registration_spec [featA, featB] hypXinit [1, 0] := by
  have h1 : GridSearchReranker.get_rerank_score hypXinit [1, 0] = 3 := by
    norm_num [GridSearchReranker.get_rerank_score, hypXinit, np_dot]
  have h2 : get_rerank_score_registration_spec [featA, featB] hypXinit [1, 0] = 2 := by
    have hab : (("a" : String) == "b") = false := by decide
    have haa : (("a" : String) == "a") = true := by decide
    have hba : (("b" : String) == "a") = false := by decide
    have hbb : (("b" : String) == "b") = true := by decide
    norm_num [get_rerank_score_registration_spec, hypXinit, np_dot, featA, featB,
      List.lookup, hab, haa, hba, hbb]
  refine ⟨init_example_featAB_eval, h1, h2, ?_⟩
  rw [h1, h2]
  norm_num

/-- Witness for the amended C4 at the concrete mixed-feature instance. -/
theorem claim_C4_witness :
    ∃ m : List (String × Rat),
      (([hypXinit] : List Hyp).getD 0 default).rerank_feature_values = some m
      ∧ m.map Prod.fst
          = (([featA, featB].filter (fun f => f.is_batched)).map (fun f => f.feature_name)
            ++ ([featA, featB].filter (fun f => !f.is_batched)).map (fun f => f.feature_name))
      ∧ GridSearchReranker.get_rerank_score (([hypXinit] : List Hyp).getD 0 default) [1, 0]
          = (([hypXinit] : List Hyp).getD 0 default).score + np_dot [1, 0] (m.map Prod.snd) := by
  obtain ⟨m, hm, hnames, hscore, _⟩ := claim_C4_score_stored_order [featA, featB]
    (by simp [featA, featB]) toy_tokenize exampleA [hypX] [hypXinit]
    init_example_featAB_eval 0 (by simp)
  exact ⟨m, hm, hnames, hscore [1, 0]⟩

/-- Claim C5: filtering before the first initialization keeps a hypothesis if
and only if its code string is nonempty and `tokenize_code` succeeds on it; a
tokenization error is caught by `is_valid_hyp` (returned as `false`, never
propagated) and the hypothesis is dropped from its example's list in place; on
the spec's sample list `["x=1", "", "not valid python(("]` only the
tokenizable nonempty entry survives, and the whole
`filter_hyps_and_initialize_features` call succeeds on it. -/
theorem claim_C5_filter_keeps_valid :
    (∀ (tokenize : String → Except Unit (List String)) (hyp : Hyp),
        is_valid_hyp tokenize hyp = true
          ↔ (hyp.code ≠ "" ∧ ∃ toks, tokenize hyp.code = Except.ok toks))
      ∧ filter_hyps toy_tokenize [[hypX, hypE, hypB]] = [[hypX]]
      ∧ filter_hyps_and_init_features [] toy_tokenize [exampleA] [[hypX, hypE, hypB]]
          = Except.ok [[hypXinitNF]] := by
  refine ⟨?_, rfl, rfl⟩
  intro tokenize hyp
  unfold is_valid_hyp
  cases htok : tokenize hyp.code with
  | ok toks => simp [htok]
  | error e => simp [htok]

theorem list_mapE_ok_of_forall {α β : Type} (f : α → Except PyError β) :
    ∀ (xs : List α), (∀ x ∈ xs, ∃ y, f x = Except.ok y) →
      ∃ ys, list_mapE f xs = Except.ok ys := by
  intro xs
  induction xs with
  | nil => intro _; exact ⟨[], rfl⟩
  | cons x xs ih =>
    intro hall
    obtain ⟨y, hy⟩ := hall x (List.mem_cons_self x xs)
    obtain ⟨ys, hys⟩ := ih (fun x' hx' => hall x' (List.mem_cons_of_mem x hx'))
    exact ⟨y :: ys, by simp only [list_mapE, hy, hys]⟩

theorem init_hyps_phase1_filter_ok (tokenize : String → Except Unit (List String))
    (hyps : List Hyp) :
    ∃ out, init_hyps_phase1 tokenize (hyps.filter (is_valid_hyp tokenize)) = Except.ok out := by
  induction hyps with
  | nil => exact ⟨[], rfl⟩
  | cons h hs ih =>
    obtain ⟨out, hout⟩ := ih
    by_cases hv : is_valid_hyp tokenize h = true
    · rw [List.filter_cons_of_pos hv]
      have htok : ∃ toks, tokenize h.code = Except.ok toks := by
        unfold is_valid_hyp at hv
        cases htok : tokenize h.code with
        | ok toks => exact ⟨toks, rfl⟩
        | error e => rw [htok] at hv; cases hv
      obtain ⟨toks, htok⟩ := htok
      refine ⟨({ h with code_token_count := toks.length, rerank_feature_values := some [] } : Hyp) :: out, ?_⟩
      simp only [init_hyps_phase1, htok, hout]
    · rw [List.filter_cons_of_neg hv]
      exact ⟨out, hout⟩

theorem init_example_filter_ok (features : List RerankingFeature)
    (tokenize : String → Except Unit (List String)) (ex : PyExample) (hyps : List Hyp) :
    ∃ out, init_example features tokenize ex (hyps.filter (is_valid_hyp tokenize))
      = Except.ok out := by
  obtain ⟨o1, ho1⟩ := init_hyps_phase1_filter_ok tokenize hyps
  refine ⟨init_hyps_nonbatched (build_feat_map features) ex
    (init_hyps_batched (build_batched_features features) ex o1), ?_⟩
  simp only [init_example, ho1]

theorem filter_init_ok (features : List RerankingFeature)
    (tokenize : String → Except Unit (List String))
    (examples : List PyExample) (dr : List (List Hyp))
    (h : dr.headD [] ≠ []) :
    ∃ dr', filter_hyps_and_init_features features tokenize examples dr = Except.ok dr' := by
  cases dr with
  | nil => exact absurd rfl h
  | cons hyps0 rest =>
    cases hyps0 with
    | nil => exact absurd rfl h
    | cons h0 hs =>
      by_cases hfv : h0.rerank_feature_values.isSome = true
      · exact ⟨(h0 :: hs) :: rest, by simp only [filter_hyps_and_init_features, if_pos hfv]⟩
      · have hall : ∀ q ∈ examples.zip
            (((h0 :: hs) :: rest).map (fun hyps => hyps.filter (is_valid_hyp tokenize))),
            ∃ y, init_example features tokenize
              (Prod.fst (q : PyExample × List Hyp)) q.2 = Except.ok y := by
          intro q hq
          have hq2 := (List.of_mem_zip hq).2
          obtain ⟨hyps, hmem, hfeq⟩ := List.mem_map.mp hq2
          obtain ⟨out, hout⟩ := init_example_filter_ok features tokenize q.1 hyps
          exact ⟨out, by rw [← hfeq]; exact hout⟩
        obtain ⟨ys, hys⟩ := list_mapE_ok_of_forall
          (fun q : PyExample × List Hyp => init_example features tokenize q.1 q.2)
          (examples.zip
            (((h0 :: hs) :: rest).map (fun hyps => hyps.filter (is_valid_hyp tokenize))))
          hall
        refine ⟨ys ++ (((h0 :: hs) :: rest).map
          (fun hyps => hyps.filter (is_valid_hyp tokenize))).drop examples.length, ?_⟩
        simp only [filter_hyps_and_init_features, if_neg hfv, init_rerank_features,
          filter_hyps, hys]

/-- Claim C6 (amended): provided the FIRST hypothesis list of `decode_results`
is nonempty when the call begins (the initialization guard indexes
`decode_results[0][0]`, raising IndexError otherwise — see the counterexample),
`compute_rerank_performance` does not raise, and every example whose
hypothesis list is empty after filtering contributes an empty list to the
reranked results passed to the evaluator, wherever it appears. -/
theorem claim_C6_empty_contributes_empty (g : Hyp → List Rat → Rat)
    (features : List RerankingFeature) (tokenize : String → Except Unit (List String))
    (ev : List PyExample → List (List Hyp) → Bool → Rat) (sp : List Rat)
    (examples : List PyExample) (dr : List (List Hyp)) (param : Option (List Rat)) (fm : Bool)
    (h : dr.headD [] ≠ []) :
    ∃ dr', filter_hyps_and_init_features features tokenize examples dr = Except.ok dr'
      ∧ compute_rerank_performance g features tokenize ev sp examples dr param fm
          = Except.ok ((examples.zip dr').map
              (fun q => rerank_one_example g (param.getD sp) fm q.2),
            ev examples ((examples.zip dr').map
              (fun q => rerank_one_example g (param.getD sp) fm q.2)) fm)
      ∧ ∀ q ∈ examples.zip dr', q.2 = [] →
          rerank_one_example g (param.getD sp) fm q.2 = [] := by
  obtain ⟨dr', hdr'⟩ := filter_init_ok features tokenize examples dr h
  refine ⟨dr', hdr', ?_, ?_⟩
  · simp only [compute_rerank_performance, hdr']
  · intro q _ hq2
    rw [hq2]
    rfl

/-- Counterexample to C6 as stated: an example with an empty hypothesis list at
the FIRST position makes `compute_rerank_performance` raise IndexError (the
initialization guard indexes `decode_results[0][0]`), instead of contributing
an empty reranked list. -/
theorem claim_C6_counterexample :
    compute_rerank_performance GridSearchReranker.get_rerank_score [] toy_tokenize
        (fun _ _ _ => 0) [] [exampleA] [[]] none true
      = Except.error PyError.indexError := rfl

/-- Witness for the amended C6: the empty-after-filtering example in second
position contributes an empty list and nothing raises. -/
theorem claim_C6_witness :
    ∃ dr' r,
      filter_hyps_and_init_features [] toy_tokenize [exampleA, exampleB] [[hypX], [hypB]]
          = Except.ok dr'
        ∧ compute_rerank_performance GridSearchReranker.get_rerank_score [] toy_tokenize
            (fun _ _ _ => 0) [] [exampleA, exampleB] [[hypX], [hypB]] none true
            = Except.ok r
        ∧ ∀ q ∈ ([exampleA, exampleB].zip dr'), q.2 = [] →
            rerank_one_example GridSearchReranker.get_rerank_score [] true q.2 = [] := by
  obtain ⟨dr', h1, h2, h3⟩ := claim_C6_empty_contributes_empty
    GridSearchReranker.get_rerank_score [] toy_tokenize (fun _ _ _ => 0) []
    [exampleA, exampleB] [[hypX], [hypB]] none true (by decide)
  exact ⟨dr', _, h1, h2, h3⟩

theorem init_example_all_some (features : List RerankingFeature)
    (tokenize : String → Except Unit (List String)) (ex : PyExample) (hyps out : List Hyp)
    (hout : init_example features tokenize ex hyps = Except.ok out) :
    ∀ h ∈ out, h.rerank_feature_values.isSome = true := by
  simp only [init_example] at hout
  cases hph : init_hyps_phase1 tokenize hyps with
  | error e => rw [hph] at hout; cases hout
  | ok h1 =>
    rw [hph] at hout
    cases hout
    intro h hmem
    simp only [init_hyps_nonbatched] at hmem
    obtain ⟨i, _, heq⟩ := List.mem_map.mp hmem
    rw [← heq]
    rfl

theorem list_mapE_mem {α β : Type} (f : α → Except PyError β) :
    ∀ (xs : List α) (ys : List β), list_mapE f xs = Except.ok ys →
      ∀ y ∈ ys, ∃ x ∈ xs, f x = Except.ok y := by
  intro xs
  induction xs with
  | nil =>
    intro ys h y hy
    simp only [list_mapE] at h
    cases h
    simp at hy
  | cons x xs ih =>
    intro ys h y hy
    simp only [list_mapE] at h
    cases hfx : f x with
    | error e => rw [hfx] at h; cases h
    | ok b =>
      rw [hfx] at h
      cases hrec : list_mapE f xs with
      | error e => rw [hrec] at h; cases h
      | ok bs =>
        rw [hrec] at h
        cases h
        rcases List.mem_cons.mp hy with he | hm
        · exact ⟨x, List.mem_cons_self x xs, he ▸ hfx⟩
        · obtain ⟨x', hx', hfx'⟩ := ih bs hrec y hm
          exact ⟨x', List.mem_cons_of_mem x hx', hfx'⟩

/-- Claim C7 (amended): a second call of `filter_hyps_and_initialize_features`
on the results of a successful first call is skipped entirely (and so leaves
every hypothesis's `rerank_feature_values` and the lists unchanged), PROVIDED
the first hypothesis list is nonempty after the first call's filtering; when
the first list came out empty, the second call instead raises IndexError at
the `decode_results[0][0]` guard (see the counterexample). -/
theorem claim_C7_second_call_skips (features : List RerankingFeature)
    (tokenize : String → Except Unit (List String)) (examples : List PyExample)
    (dr dr' : List (List Hyp))
    (hlen : examples.length = dr.length)
    (h1 : filter_hyps_and_init_features features tokenize examples dr = Except.ok dr')
    (h2 : dr'.headD [] ≠ []) :
    filter_hyps_and_init_features features tokenize examples dr' = Except.ok dr' := by
  cases dr with
  | nil =>
    simp only [filter_hyps_and_init_features] at h1
    cases h1
  | cons hyps0 rest =>
    cases hyps0 with
    | nil =>
      simp only [filter_hyps_and_init_features] at h1
      cases h1
    | cons h0 hs =>
      cases dr' with
      | nil => exact absurd rfl h2
      | cons l0 rest' =>
        cases hl0 : l0 with
        | nil => rw [hl0] at h2; exact absurd rfl h2
        | cons hh hhs =>
          subst hl0
          have hsome : hh.rerank_feature_values.isSome = true := by
            simp only [filter_hyps_and_init_features] at h1
            by_cases hfv : h0.rerank_feature_values.isSome = true
            · rw [if_pos hfv] at h1
              cases h1
              exact hfv
            · rw [if_neg hfv] at h1
              simp only [init_rerank_features, filter_hyps] at h1
              cases hmap : list_mapE
                  (fun p => init_example features tokenize p.1 p.2)
                  (examples.zip (((h0 :: hs) :: rest).map
                    (fun hyps => hyps.filter (is_valid_hyp tokenize)))) with
              | error e => rw [hmap] at h1; cases h1
              | ok updated =>
                rw [hmap] at h1
                injection h1 with h1'
                -- the dropped tail is empty because the lengths agree
                have hdrop : ((((h0 :: hs) :: rest).map
                    (fun hyps => hyps.filter (is_valid_hyp tokenize))).drop
                      examples.length) = [] := by
                  apply List.drop_eq_nil_of_le
                  rw [List.length_map, ← hlen]
                rw [hdrop, List.append_nil] at h1'
                -- hence the head list comes from some init_example call
                have hl0mem : (hh :: hhs) ∈ updated := by
                  rw [h1']
                  exact List.mem_cons_self _ _
                obtain ⟨q, _, hq⟩ := list_mapE_mem _ _ updated hmap (hh :: hhs) hl0mem
                exact init_example_all_some features tokenize q.1 q.2 (hh :: hhs) hq hh
                  (List.mem_cons_self hh hhs)
          simp only [filter_hyps_and_init_features, if_pos hsome]

/-- Counterexample to C7 as stated: the first example's only hypothesis is
untokenizable; the first call succeeds and leaves the first list empty, and
the second call on the same (mutated) decode results is NOT skipped and does
not leave things be — it raises IndexError at the `decode_results[0][0]`
guard. -/
theorem claim_C7_counterexample :
    filter_hyps_and_init_features [] toy_tokenize [exampleA] [[hypB]] = Except.ok [[]]
      ∧ filter_hyps_and_init_features [] toy_tokenize [exampleA] [[]]
          = Except.error PyError.indexError := ⟨rfl, rfl⟩

/-- Witness for the amended C7: after a successful first call whose first list
is nonempty, the second call returns its input unchanged. -/
theorem claim_C7_witness :
    filter_hyps_and_init_features [] toy_tokenize [exampleA] [[hypXinitNF]]
      = Except.ok [[hypXinitNF]] :=
  claim_C7_second_call_skips [] toy_tokenize [exampleA] [[hypX]] [[hypXinitNF]]
    (by decide) (by rfl) (by decide)

/-- Claim C1 (code bug): `GridSearchReranker.train` never reaches its search
loop.  Line 345 computes `length = len([x for e in param_space])`, where `x`
is an unbound name: the comprehension raises `NameError: name 'x' is not
defined` at the first grid point, so for any nonempty parameter grid —
including 1 feature over the spec's coarsened value set {0.0, 1.0, 2.0} and
over the full `np.arange(0, 3.01, 0.01)` grid — `train` raises instead of
enumerating combinations and storing the argmax parameter.  (Moreover the
comprehension consumes the `param_space` generator, so even with `x` bound the
loop would run zero times and leave `parameter` at zeros, still never [1.0].) -/
theorem combinations_ne_nil {α : Type} :
    ∀ (l : List α) (n : Nat), n ≤ l.length → combinations l n ≠ [] := by
  intro l
  induction l with
  | nil =>
    intro n hn
    have hz : n = 0 := Nat.le_zero.mp (by simpa using hn)
    subst hz
    simp [combinations]
  | cons x xs ih =>
    intro n hn
    cases n with
    | zero => simp [combinations]
    | succ n =>
      simp only [combinations]
      intro hc
      rcases List.append_eq_nil.mp hc with ⟨hc1, _⟩
      exact ih n (by simpa using hn) (List.map_eq_nil.mp hc1)

theorem train_raises_of_feature_num_le (n : Nat) (grid : List Rat) (h : n ≤ grid.length) :
    GridSearchReranker.train n grid = Except.error PyError.nameError := by
  unfold GridSearchReranker.train
  rw [if_neg]
  rw [List.isEmpty_iff]
  exact combinations_ne_nil grid n h

theorem claim_C1_train_raises_nameerror :
    GridSearchReranker.train 1 [0, 1, 2] = Except.error PyError.nameError
      ∧ GridSearchReranker.train 1 np_arange_grid = Except.error PyError.nameError
      ∧ GridSearchReranker.train 2 np_arange_grid = Except.error PyError.nameError := by
  have hlen : np_arange_grid.length = 301 := by
    rw [np_arange_grid, List.length_map, List.length_range]
  exact ⟨rfl, train_raises_of_feature_num_le 1 np_arange_grid (by rw [hlen]; norm_num),
    train_raises_of_feature_num_le 2 np_arange_grid (by rw [hlen]; norm_num)⟩

/-! ### The multiprocess merge (C8) -/

theorem merge_fold_aux :
    ∀ (results : List (List Rat × Rat)) (init : List Rat × Rat),
      (results.foldl merge_step init = init ∨ results.foldl merge_step init ∈ results)
      ∧ init.2 ≤ (results.foldl merge_step init).2
      ∧ (init.2 = (results.foldl merge_step init).2 →
          norm_sq (results.foldl merge_step init).1 ≤ norm_sq init.1)
      ∧ ∀ r ∈ results, r.2 ≤ (results.foldl merge_step init).2
          ∧ (r.2 = (results.foldl merge_step init).2 →
              norm_sq (results.foldl merge_step init).1 ≤ norm_sq r.1) := by
  intro results
  induction results with
  | nil =>
    intro init
    refine ⟨Or.inl rfl, le_refl _, fun _ => le_refl _, ?_⟩
    simp
  | cons r rs ih =>
    intro init
    simp only [List.foldl_cons]
    obtain ⟨hmem, hle, hnorm, hall⟩ := ih (merge_step init r)
    have hstep_le : init.2 ≤ (merge_step init r).2 := by
      unfold merge_step
      by_cases hc : r.2 > init.2 ∨ (r.2 = init.2 ∧ norm_sq r.1 < norm_sq init.1)
      · rw [if_pos hc]
        rcases hc with hgt | ⟨heq, _⟩
        · exact le_of_lt hgt
        · exact le_of_eq heq.symm
      · rw [if_neg hc]
    have hstep_norm : init.2 = (merge_step init r).2 →
        norm_sq (merge_step init r).1 ≤ norm_sq init.1 := by
      unfold merge_step
      by_cases hc : r.2 > init.2 ∨ (r.2 = init.2 ∧ norm_sq r.1 < norm_sq init.1)
      · rw [if_pos hc]
        intro he
        rcases hc with hgt | ⟨_, hn⟩
        · exact absurd hgt (by rw [← he]; exact lt_irrefl _)
        · exact le_of_lt hn
      · rw [if_neg hc]
        intro _
        exact le_refl _
    have hstep_r_le : r.2 ≤ (merge_step init r).2 := by
      unfold merge_step
      by_cases hc : r.2 > init.2 ∨ (r.2 = init.2 ∧ norm_sq r.1 < norm_sq init.1)
      · rw [if_pos hc]
      · rw [if_neg hc]
        push_neg at hc
        exact hc.1
    have hstep_r_norm : r.2 = (merge_step init r).2 →
        norm_sq (merge_step init r).1 ≤ norm_sq r.1 := by
      unfold merge_step
      by_cases hc : r.2 > init.2 ∨ (r.2 = init.2 ∧ norm_sq r.1 < norm_sq init.1)
      · rw [if_pos hc]
        intro _
        exact le_refl _
      · rw [if_neg hc]
        intro he
        push_neg at hc
        exact hc.2 he
    refine ⟨?_, le_trans hstep_le hle, ?_, ?_⟩
    · rcases hmem with he | hm
      · rw [he]
        unfold merge_step
        by_cases hc : r.2 > init.2 ∨ (r.2 = init.2 ∧ norm_sq r.1 < norm_sq init.1)
        · rw [if_pos hc]
          exact Or.inr (List.mem_cons_self r rs)
        · rw [if_neg hc]
          exact Or.inl rfl
      · exact Or.inr (List.mem_cons_of_mem r hm)
    · intro he
      have hseq : (merge_step init r).2 = (rs.foldl merge_step (merge_step init r)).2 :=
        le_antisymm hle (by rw [← he]; exact hstep_le)
      exact le_trans (hnorm hseq) (hstep_norm (by rw [he, ← hseq]))
    · intro r' hr'
      rcases List.mem_cons.mp hr' with he | hm
      · subst he
        constructor
        · exact le_trans hstep_r_le hle
        · intro he2
          have hseq : (merge_step init r').2 = (rs.foldl merge_step (merge_step init r')).2 :=
            le_antisymm hle (by rw [← he2]; exact hstep_r_le)
          exact le_trans (hnorm hseq) (hstep_r_norm (by rw [he2, ← hseq]))
      · exact hall r' hm

/-- Claim C8: the coordinator of `train_multiprocess` merges worker results
keeping the pair of globally maximal score, and among results of exactly
equal (maximal) score it keeps one of minimal sum of squared entries (Python:
`score > best_score or score == best_score and _norm(param) < _norm(best_param)`);
in particular workers returning ([0.5], 0.8) and ([0.2], 0.8) merge to the
lower-norm parameter [0.2] in either arrival order. -/
theorem claim_C8_merge_tie_break :
    (∀ (fnum : Nat) (ip : Rat) (results : List (List Rat × Rat)),
        (merge_results fnum ip results = (List.replicate fnum 0, ip)
            ∨ merge_results fnum ip results ∈ results)
          ∧ ip ≤ (merge_results fnum ip results).2
          ∧ (∀ r ∈ results, r.2 ≤ (merge_results fnum ip results).2)
          ∧ (∀ r ∈ results, r.2 = (merge_results fnum ip results).2 →
              norm_sq (merge_results fnum ip results).1 ≤ norm_sq r.1))
      ∧ merge_results 1 0 [([1/2], 4/5), ([1/5], 4/5)] = ([1/5], 4/5)
      ∧ merge_results 1 0 [([1/5], 4/5), ([1/2], 4/5)] = ([1/5], 4/5) := by
  refine ⟨?_, ?_, ?_⟩
  · intro fnum ip results
    obtain ⟨hmem, hle, _, hall⟩ := merge_fold_aux results (List.replicate fnum 0, ip)
    exact ⟨hmem, hle, fun r hr => (hall r hr).1, fun r hr => (hall r hr).2⟩
  · norm_num [merge_results, merge_step, norm_sq]
  · norm_num [merge_results, merge_step, norm_sq]

theorem flatten_filter_nonempty {α : Type} (dr : List (List α)) :
    (dr.filter (fun l => !l.isEmpty)).flatten = dr.flatten := by
  induction dr with
  | nil => rfl
  | cons l ls ih =>
    by_cases hl : l.isEmpty = true
    · have hnil : l = [] := List.isEmpty_iff.mp hl
      subst hnil
      rw [List.filter_cons_of_neg (by simp), List.flatten_cons, List.nil_append, ih]
    · rw [List.filter_cons_of_pos (by simp [Bool.not_eq_true] at hl ⊢; exact hl),
        List.flatten_cons, List.flatten_cons, ih]

/-- Claim C9: for decode results with at least one nonempty hypothesis list,
`XGBoostReranker.get_feature_matrix` returns one row per hypothesis
(`[score] ++ cached feature values` in stored order), one 0/1 label per
hypothesis, and one group entry per NONEMPTY example holding its hypothesis
count (empty examples are excluded); the row count is the total hypothesis
count. -/
theorem claim_C9_feature_matrix (dr : List (List Hyp))
    (h : ∃ hyps ∈ dr, hyps ≠ []) :
    ∃ x y group, get_feature_matrix dr = Except.ok (x, y, group)
      ∧ x = dr.flatten.map feat_vec
      ∧ y = dr.flatten.map (fun hyp => if hyp.is_correct then (1 : Nat) else 0)
      ∧ group = (dr.filter (fun hyps => !hyps.isEmpty)).map List.length
      ∧ x.length = (dr.map List.length).sum := by
  have hx : ((dr.filter (fun hyps => !hyps.isEmpty)).map (fun hyps => hyps.map feat_vec)).flatten
      = dr.flatten.map feat_vec := by
    rw [← List.map_flatten, flatten_filter_nonempty]
  have hy : ((dr.filter (fun hyps => !hyps.isEmpty)).map
        (fun hyps => hyps.map (fun hyp => if hyp.is_correct then (1 : Nat) else 0))).flatten
      = dr.flatten.map (fun hyp => if hyp.is_correct then (1 : Nat) else 0) := by
    rw [← List.map_flatten, flatten_filter_nonempty]
  have hne : (dr.flatten.map feat_vec).isEmpty = false := by
    obtain ⟨hyps, hmem, hne'⟩ := h
    cases hyps with
    | nil => exact absurd rfl hne'
    | cons a as =>
      rw [List.isEmpty_eq_false]
      intro hc
      have hmem2 : a ∈ dr.flatten :=
        List.mem_flatten.mpr ⟨a :: as, hmem, List.mem_cons_self a as⟩
      rw [List.map_eq_nil.mp hc] at hmem2
      simp at hmem2
  refine ⟨dr.flatten.map feat_vec,
    dr.flatten.map (fun hyp => if hyp.is_correct then (1 : Nat) else 0),
    (dr.filter (fun hyps => !hyps.isEmpty)).map List.length, ?_, rfl, rfl, rfl, ?_⟩
  · simp only [get_feature_matrix, hx, hy, hne, Bool.false_eq_true, if_false]
  · rw [List.length_map, List.length_flatten]

/-- Witness for C9: per-example hypothesis counts [3, 0, 2] yield 5 rows and
group sizes [3, 2]. -/
theorem claim_C9_witness :
    ∃ x y group, get_feature_matrix drCounts = Except.ok (x, y, group)
      ∧ x.length = 5 ∧ group = [3, 2] := by
  obtain ⟨x, y, group, hok, _, _, hg, hlen⟩ := claim_C9_feature_matrix drCounts
    ⟨List.replicate 3 hypX, List.mem_cons_self _ _, by simp⟩
  refine ⟨x, y, group, hok, ?_, ?_⟩
  · rw [hlen]
    rfl
  · rw [hg]
    rfl

/-- Claim C10: `XGBoostReranker.get_rerank_score` is independent of its
`param` argument — it always returns the trained booster's prediction on the
hypothesis's one-row feature matrix — and consequently
`compute_rerank_performance` with this scorer returns identical results for
any two `param` arguments. -/
theorem claim_C10_xgb_score_param_independent (predict : List (List Rat) → List Rat) :
    (∀ (hyp : Hyp) (p1 p2 : List Rat),
        XGBoostReranker.get_rerank_score predict hyp p1
            = XGBoostReranker.get_rerank_score predict hyp p2
          ∧ XGBoostReranker.get_rerank_score predict hyp p1
            = (predict [feat_vec hyp]).getD 0 0)
      ∧ ∀ (features : List RerankingFeature) (tokenize : String → Except Unit (List String))
          (ev : List PyExample → List (List Hyp) → Bool → Rat) (sp : List Rat)
          (examples : List PyExample) (dr : List (List Hyp))
          (param1 param2 : Option (List Rat)) (fm : Bool),
          compute_rerank_performance (XGBoostReranker.get_rerank_score predict) features
              tokenize ev sp examples dr param1 fm
            = compute_rerank_performance (XGBoostReranker.get_rerank_score predict) features
                tokenize ev sp examples dr param2 fm := by
  constructor
  · intro hyp p1 p2
    exact ⟨rfl, rfl⟩
  · intro features tokenize ev sp examples dr param1 param2 fm
    rfl
